import Mathlib

/-!
Verification of the grade vocabulary, canonical ordering, answer-extraction and
normalization subsystem of the ai-climbing-cotations repository.

The Python sources are shallowly embedded:
* `Utils/grade_sort.py` — the canonical order table `_ORDER`, the derived rank
  dictionary `_RANK`, and the sorter `sort_cotations` / `sort_and_array`.
* `AI/AiOps.py` / `MapReduce/reducer.py` — the structural regular expression
  `_JSON_RE`, the extractor `_extract_json`, the reducer's key/value
  normalization loop, and the activity gate `_wanted_activity`.

Python dicts are modelled as association lists in insertion order with the
dict-assignment primitive `dictInsert`; fallible operations return `Option`
or `Except`.
-/

/-- The canonical ascending-difficulty order: the `_ORDER` list of
`Utils/grade_sort.py`, token for token. -/
def _ORDER : List String := [
  "1",
  "I", "I+",
  "2",
  "II", "II+",
  "3",
  "III", "III+",
  "3+", "3a", "3b", "3c",
  "4",
  "IV-", "IV", "IV+",
  "4a", "4b", "4c", "4c+", "4+",
  "V-", "V", "V+",
  "5", "5+", "5a", "5a+", "5b", "5b+", "5c", "5c+",
  "VI-", "VI", "VI+",
  "6", "6a", "6a+", "6b", "6b+",
  "VII-", "VII", "VII+",
  "6c", "6c+",
  "VIII-", "VIII", "VIII+",
  "7a", "7a+", "7b", "7b+",
  "IX-", "IX", "IX+",
  "7c", "7c+",
  "X-", "X", "X+",
  "8a", "8a+", "8b", "8b+",
  "XI-", "XI",
  "8c", "8c+",
  "9a", "9a+", "9b", "9b+", "9c", "9c+"]

/-- Python's `str.lower()`, character by character (exact on the ASCII tokens
and keys this system handles; `Char.toLower` lowers the basic latin range). -/
def lowerStr (s : String) : String := ⟨s.data.map Char.toLower⟩

/-- Python dict assignment `d[k] = v` on an insertion-ordered association
list: an existing key keeps its position and gets the new value, a new key is
appended at the end. -/
def dictInsert (d : List (String × α)) (k : String) (v : α) : List (String × α) :=
  match d with
  | [] => [(k, v)]
  | (k0, v0) :: rest => if k0 = k then (k0, v) :: rest else (k0, v0) :: dictInsert rest k v

/-- Python dict lookup `d[k]` (first — and, keys being unique, only — binding). -/
def dictGet (k : String) : List (String × α) → Option α
  | [] => none
  | (k0, v) :: rest => if k0 = k then some v else dictGet k rest

/-- `_RANK = {g.lower(): i for i, g in enumerate(_ORDER)}` of
`Utils/grade_sort.py`: the dict comprehension is a fold of dict assignments
over the enumerated list. -/
def _RANK : List (String × Nat) :=
  _ORDER.enum.foldl (fun d p => dictInsert d (lowerStr p.2) p.1) []

/-- Rank lookup `_RANK[s]` (`none` models a `KeyError` / failed membership). -/
def rank? (s : String) : Option Nat := dictGet s _RANK

/-- The sort key comparison used by `sorted(known, key=lambda k: _RANK[k.lower()])`:
keys compare by their rank. The default `0` is never reached on the keys the
source applies it to, which are all in `_RANK`. -/
def gradeLE (a b : String) : Bool :=
  decide ((rank? (lowerStr a)).getD 0 ≤ (rank? (lowerStr b)).getD 0)

/-- `known = [k for k in cotes if k.lower() in _RANK]` of `sort_cotations`. -/
def knownKeys (cotes : List (String × Int)) : List String :=
  (cotes.map Prod.fst).filter (fun k => (rank? (lowerStr k)).isSome)

/-- `unknown = [k for k in cotes if k.lower() not in _RANK]` of `sort_cotations`. -/
def unknownKeys (cotes : List (String × Int)) : List String :=
  (cotes.map Prod.fst).filter (fun k => !(rank? (lowerStr k)).isSome)

/-- Stable insertion into an already-sorted list: the new element is placed
before the first element it compares `le` to, hence after every earlier
element it ties with. -/
def sortedInsert (le : α → α → Bool) (x : α) : List α → List α
  | [] => [x]
  | y :: ys => if le x y then x :: y :: ys else y :: sortedInsert le x ys

/-- Stable insertion sort. Python's `sorted` is a stable sort, and a stable
sort's output is uniquely determined by the comparator, so this models
`sorted(known, key=lambda k: _RANK[k.lower()])` exactly. -/
def stableSort (le : α → α → Bool) : List α → List α
  | [] => []
  | x :: xs => sortedInsert le x (stableSort le xs)

/-- `sort_cotations` of `Utils/grade_sort.py`: known keys stably sorted by
rank, unknown keys appended in insertion order, and the result dict rebuilt
by the comprehension `{k: cotes[k] for k in (*known_sorted, *unknown)}`. -/
def sort_cotations (cotes : List (String × Int)) : List (String × Int) :=
  (stableSort gradeLE (knownKeys cotes) ++ unknownKeys cotes).foldl
    (fun d k => dictInsert d k ((dictGet k cotes).getD 0)) []

/-- `sort_and_array` of `Utils/grade_sort.py`; the `.items()` traversal of the
sorted dict is the association list itself, each pair standing for one
`grade`/`count` record. -/
def sort_and_array (cotes : List (String × Int)) : List (String × Int) :=
  sort_cotations cotes

/-- The historically-paired tiers as laid out in `_ORDER`: for each Roman
block, its highest member together with the first member of the Arabic block
that immediately follows it. -/
def pairedTiers : List (String × String) :=
  [("I+", "2"), ("II+", "3"), ("III+", "3+"), ("IV+", "4a"), ("V+", "5"),
   ("VI+", "6"), ("VII+", "6c"), ("VIII+", "7a"), ("IX+", "7c"),
   ("X+", "8a"), ("XI", "8c")]

/-- C1: in the canonical order table every historically-paired tier has the
Roman block's highest member at a strictly lower rank than the first member of
its paired Arabic block; in particular `rank("IV+") < rank("4a")`; and the
ranks assigned along the table are strictly increasing overall. -/
theorem C1_canonical_interleave :
    (∀ p ∈ pairedTiers,
      (rank? (lowerStr p.1)).isSome ∧ (rank? (lowerStr p.2)).isSome ∧
      (rank? (lowerStr p.1)).getD 0 < (rank? (lowerStr p.2)).getD 0) ∧
    (rank? (lowerStr "IV+")).getD 0 < (rank? (lowerStr "4a")).getD 0 ∧
    List.Pairwise (· < ·) (_ORDER.map (fun g => (rank? (lowerStr g)).getD 0)) := by
  decide

/-! ### Generic facts about the sorter's building blocks -/

theorem sortedInsert_perm (le : α → α → Bool) (x : α) :
    ∀ l : List α, (sortedInsert le x l).Perm (x :: l)
  | [] => List.Perm.refl _
  | y :: ys => by
    by_cases h : le x y
    · simp [sortedInsert, h]
    · simp only [sortedInsert, if_neg h]
      exact ((sortedInsert_perm le x ys).cons y).trans (List.Perm.swap x y ys)

theorem stableSort_perm (le : α → α → Bool) : ∀ l : List α, (stableSort le l).Perm l
  | [] => List.Perm.refl _
  | x :: xs =>
    (sortedInsert_perm le x (stableSort le xs)).trans ((stableSort_perm le xs).cons x)

theorem sortedInsert_pairwise (le : α → α → Bool)
    (htrans : ∀ a b c, le a b = true → le b c = true → le a c = true)
    (htotal : ∀ a b, le a b || le b a) (x : α) :
    ∀ {l : List α}, l.Pairwise (fun a b => le a b = true) →
      (sortedInsert le x l).Pairwise (fun a b => le a b = true)
  | [], _ => by simp [sortedInsert]
  | y :: ys, h => by
    rw [List.pairwise_cons] at h
    show (if le x y then x :: y :: ys else y :: sortedInsert le x ys).Pairwise _
    by_cases hxy : le x y
    · rw [if_pos hxy]
      refine List.pairwise_cons.mpr ⟨?_, List.pairwise_cons.mpr h⟩
      intro z hz
      rcases List.mem_cons.mp hz with hz | hz
      · exact hz ▸ hxy
      · exact htrans x y z hxy (h.1 z hz)
    · have hyx : le y x := by
        rcases Bool.or_eq_true_iff.mp (htotal x y) with h' | h'
        · exact absurd h' hxy
        · exact h'
      rw [if_neg hxy]
      refine List.pairwise_cons.mpr ⟨?_, sortedInsert_pairwise le htrans htotal x h.2⟩
      intro z hz
      rcases List.mem_cons.mp ((sortedInsert_perm le x ys).mem_iff.mp hz) with hz | hz
      · exact hz ▸ hyx
      · exact h.1 z hz

theorem stableSort_pairwise (le : α → α → Bool)
    (htrans : ∀ a b c, le a b = true → le b c = true → le a c = true)
    (htotal : ∀ a b, le a b || le b a) :
    ∀ l : List α, (stableSort le l).Pairwise (fun a b => le a b = true)
  | [] => List.Pairwise.nil
  | x :: xs =>
    sortedInsert_pairwise le htrans htotal x (stableSort_pairwise le htrans htotal xs)

theorem sortedInsert_of_le_all (le : α → α → Bool) (x : α) :
    ∀ {l : List α}, (∀ y ∈ l, le x y = true) → sortedInsert le x l = x :: l
  | [], _ => rfl
  | y :: ys, h => by simp [sortedInsert, h y (List.mem_cons_self y ys)]

theorem stableSort_of_pairwise (le : α → α → Bool) :
    ∀ {l : List α}, l.Pairwise (fun a b => le a b = true) → stableSort le l = l
  | [], _ => rfl
  | x :: xs, h => by
    rw [List.pairwise_cons] at h
    simp only [stableSort]
    rw [stableSort_of_pairwise le h.2, sortedInsert_of_le_all le x h.1]

theorem gradeLE_trans :
    ∀ a b c, gradeLE a b = true → gradeLE b c = true → gradeLE a c = true := by
  intro a b c hab hbc
  simp only [gradeLE, decide_eq_true_eq] at hab hbc ⊢
  omega

theorem gradeLE_total : ∀ a b, gradeLE a b || gradeLE b a := by
  intro a b
  simp only [gradeLE]
  rcases Nat.le_total ((rank? (lowerStr a)).getD 0) ((rank? (lowerStr b)).getD 0) with h | h
  · simp [h]
  · simp [h]

/-! ### The rebuilt dict -/

theorem dictInsert_of_not_mem {d : List (String × α)} {k : String} (v : α)
    (h : k ∉ d.map Prod.fst) : dictInsert d k v = d ++ [(k, v)] := by
  induction d with
  | nil => rfl
  | cons p rest ih =>
    obtain ⟨k0, v0⟩ := p
    simp only [List.map_cons, List.mem_cons] at h
    push_neg at h
    have hk : ¬(k0 = k) := fun e => h.1 e.symm
    simp [dictInsert, hk, ih h.2]

theorem foldl_dictInsert_eq_map (cotes : List (String × Int)) :
    ∀ (ks : List String) (d : List (String × Int)),
      ks.Nodup → (∀ k ∈ ks, k ∉ d.map Prod.fst) →
      List.foldl (fun d k => dictInsert d k ((dictGet k cotes).getD 0)) d ks
        = d ++ ks.map (fun k => (k, (dictGet k cotes).getD 0)) := by
  intro ks
  induction ks with
  | nil => intro d _ _; simp
  | cons k ks ih =>
    intro d hnd hdisj
    rw [List.nodup_cons] at hnd
    rw [List.foldl_cons, dictInsert_of_not_mem _ (hdisj k (List.mem_cons_self k ks))]
    rw [ih (d ++ [(k, (dictGet k cotes).getD 0)]) hnd.2 ?_]
    · simp
    · intro k' hk'
      simp only [List.map_append, List.mem_append, List.map_cons, List.map_nil,
        List.mem_singleton]
      rintro (hin | hin)
      · exact hdisj k' (List.mem_cons_of_mem k hk') hin
      · exact hnd.1 (hin ▸ hk')

theorem sortedKeys_nodup (cotes : List (String × Int))
    (hnd : (cotes.map Prod.fst).Nodup) :
    (stableSort gradeLE (knownKeys cotes) ++ unknownKeys cotes).Nodup := by
  apply List.Nodup.append
  · exact ((stableSort_perm gradeLE _).nodup_iff).mpr (hnd.filter _)
  · exact hnd.filter _
  · intro a ha hb
    have ha' : a ∈ knownKeys cotes := (stableSort_perm gradeLE _).mem_iff.mp ha
    have h1 := (List.mem_filter.mp ha').2
    have h2 := (List.mem_filter.mp hb).2
    simp only [Bool.not_eq_true'] at h2
    rw [h2] at h1
    exact Bool.noConfusion h1

theorem sort_cotations_eq (cotes : List (String × Int))
    (hnd : (cotes.map Prod.fst).Nodup) :
    sort_cotations cotes
      = (stableSort gradeLE (knownKeys cotes) ++ unknownKeys cotes).map
          (fun k => (k, (dictGet k cotes).getD 0)) := by
  have h := foldl_dictInsert_eq_map cotes
    (stableSort gradeLE (knownKeys cotes) ++ unknownKeys cotes) []
    (sortedKeys_nodup cotes hnd) (by simp)
  simpa [sort_cotations] using h

theorem sort_cotations_keys (cotes : List (String × Int))
    (hnd : (cotes.map Prod.fst).Nodup) :
    (sort_cotations cotes).map Prod.fst
      = stableSort gradeLE (knownKeys cotes) ++ unknownKeys cotes := by
  rw [sort_cotations_eq cotes hnd, List.map_map]
  simp [Function.comp_def]

theorem map_dictGet_self (cotes : List (String × Int))
    (hnd : (cotes.map Prod.fst).Nodup) :
    (cotes.map Prod.fst).map (fun k => (k, (dictGet k cotes).getD 0)) = cotes := by
  induction cotes with
  | nil => rfl
  | cons p rest ih =>
    obtain ⟨k, v⟩ := p
    simp only [List.map_cons] at hnd ⊢
    rw [List.nodup_cons] at hnd
    have hhead : dictGet k ((k, v) :: rest) = some v := by simp [dictGet]
    rw [hhead]
    have hrest : ∀ k' ∈ rest.map Prod.fst,
        (fun kk => (kk, (dictGet kk ((k, v) :: rest)).getD 0)) k'
          = (fun kk => (kk, (dictGet kk rest).getD 0)) k' := by
      intro k' hk'
      have hne : ¬(k = k') := fun e => hnd.1 (e ▸ hk')
      simp [dictGet, hne]
    rw [List.map_congr_left hrest, ih hnd.2]
    rfl

theorem dictGet_map_pair (f : String → Int) :
    ∀ (ks : List String), ks.Nodup → ∀ k ∈ ks,
      dictGet k (ks.map (fun k' => (k', f k'))) = some (f k) := by
  intro ks
  induction ks with
  | nil => simp
  | cons a as ih =>
    intro hnd k hk
    rw [List.nodup_cons] at hnd
    simp only [List.map_cons, dictGet]
    by_cases hak : a = k
    · simp [hak]
    · have hk' : k ∈ as := by
        rcases List.mem_cons.mp hk with h | h
        · exact absurd h.symm hak
        · exact h
      simp [hak, ih hnd.2 k hk']

/-- C2: on any mapping with unique keys, the sorter puts the keys whose
lower-cased form is in the rank table first, ascending by rank, and appends
every other key after all known keys in the original insertion order, never
interleaved; in particular the keys `["bogus2", "6a", "bogus1"]` come out as
`["6a", "bogus2", "bogus1"]`. -/
theorem C2_sorter_key_order (cotes : List (String × Int))
    (hnd : (cotes.map Prod.fst).Nodup) :
    (∃ ks : List String,
      (sort_cotations cotes).map Prod.fst = ks ++ unknownKeys cotes ∧
      ks.Perm (knownKeys cotes) ∧
      ks.Pairwise (fun a b => gradeLE a b = true)) ∧
    (sort_cotations [("bogus2", 7), ("6a", 1), ("bogus1", 9)]).map Prod.fst
      = ["6a", "bogus2", "bogus1"] := by
  refine ⟨⟨stableSort gradeLE (knownKeys cotes), sort_cotations_keys cotes hnd,
    stableSort_perm _ _, stableSort_pairwise _ gradeLE_trans gradeLE_total _⟩, ?_⟩
  decide

/-- Witness for C2 at the spec's concrete example. -/
theorem C2_sorter_key_order_witness :
    (sort_cotations [("bogus2", 7), ("6a", 1), ("bogus1", 9)]).map Prod.fst
      = ["6a", "bogus2", "bogus1"] :=
  (C2_sorter_key_order [("bogus2", 7), ("6a", 1), ("bogus1", 9)] (by decide)).2

/-- C3: sorting is idempotent — re-sorting an already-sorted mapping returns
exactly the same mapping. -/
theorem C3_sort_idempotent (cotes : List (String × Int))
    (hnd : (cotes.map Prod.fst).Nodup) :
    sort_cotations (sort_cotations cotes) = sort_cotations cotes := by
  have hSeq := sort_cotations_eq cotes hnd
  have hSkeys := sort_cotations_keys cotes hnd
  have hSnd : ((sort_cotations cotes).map Prod.fst).Nodup := by
    rw [hSkeys]; exact sortedKeys_nodup cotes hnd
  have hknownMem : ∀ a ∈ stableSort gradeLE (knownKeys cotes),
      (rank? (lowerStr a)).isSome = true := by
    intro a ha
    exact (List.mem_filter.mp ((stableSort_perm gradeLE _).mem_iff.mp ha)).2
  have hunknownMem : ∀ a ∈ unknownKeys cotes,
      ¬((rank? (lowerStr a)).isSome = true) := by
    intro a ha
    have h2 := (List.mem_filter.mp ha).2
    simp only [Bool.not_eq_true'] at h2
    simp [h2]
  have hkS : knownKeys (sort_cotations cotes)
      = stableSort gradeLE (knownKeys cotes) := by
    unfold knownKeys
    rw [hSkeys, List.filter_append]
    rw [List.filter_eq_self.mpr hknownMem,
      List.filter_eq_nil_iff.mpr hunknownMem, List.append_nil]
    rfl
  have huS : unknownKeys (sort_cotations cotes) = unknownKeys cotes := by
    unfold unknownKeys
    rw [hSkeys, List.filter_append]
    have h1 : (stableSort gradeLE (knownKeys cotes)).filter
        (fun k => !(rank? (lowerStr k)).isSome) = [] := by
      rw [List.filter_eq_nil_iff]
      intro a ha
      simp [hknownMem a ha]
    have h2 : (unknownKeys cotes).filter
        (fun k => !(rank? (lowerStr k)).isSome) = unknownKeys cotes := by
      rw [List.filter_eq_self]
      intro a ha
      simp only [Bool.not_eq_eq_eq_not, Bool.not_true]
      exact Bool.not_eq_true _ ▸ (by simpa using hunknownMem a ha)
    rw [h1, h2, List.nil_append]
    rfl
  have hsorted : stableSort gradeLE (stableSort gradeLE (knownKeys cotes))
      = stableSort gradeLE (knownKeys cotes) :=
    stableSort_of_pairwise _ (stableSort_pairwise _ gradeLE_trans gradeLE_total _)
  have hvals : ∀ k ∈ stableSort gradeLE (knownKeys cotes) ++ unknownKeys cotes,
      (fun kk => (kk, (dictGet kk (sort_cotations cotes)).getD 0)) k
        = (fun kk => (kk, (dictGet kk cotes).getD 0)) k := by
    intro k hk
    have hgot : dictGet k (sort_cotations cotes)
        = some ((dictGet k cotes).getD 0) := by
      rw [hSeq]
      exact dictGet_map_pair _ _ (sortedKeys_nodup cotes hnd) k hk
    simp [hgot]
  rw [sort_cotations_eq (sort_cotations cotes) hSnd, hkS, huS, hsorted,
    List.map_congr_left hvals, ← hSeq]

/-- Witness for C3 at a concrete mapping mixing known and unknown keys. -/
theorem C3_sort_idempotent_witness :
    sort_cotations (sort_cotations [("6a", 1), ("zz", 2), ("IV-", 3)])
      = sort_cotations [("6a", 1), ("zz", 2), ("IV-", 3)] :=
  C3_sort_idempotent [("6a", 1), ("zz", 2), ("IV-", 3)] (by decide)

/-- C10: for a mapping with unique keys, `sort_cotations` returns exactly the
same key-to-count pairs — a permutation of the input with no duplicate keys,
nothing added, nothing dropped (and, being a pure function of an immutable
association list, it cannot modify its input). -/
theorem C10_sort_preserves_pairs (cotes : List (String × Int))
    (hnd : (cotes.map Prod.fst).Nodup) :
    (sort_cotations cotes).Perm cotes ∧
    ((sort_cotations cotes).map Prod.fst).Nodup := by
  have hkeys : (stableSort gradeLE (knownKeys cotes) ++ unknownKeys cotes).Perm
      (cotes.map Prod.fst) :=
    ((stableSort_perm gradeLE (knownKeys cotes)).append_right _).trans
      (List.filter_append_perm _ _)
  constructor
  · rw [sort_cotations_eq cotes hnd]
    have h2 := hkeys.map (fun k => (k, (dictGet k cotes).getD 0))
    rw [map_dictGet_self cotes hnd] at h2
    exact h2
  · rw [sort_cotations_keys cotes hnd]
    exact sortedKeys_nodup cotes hnd

/-- Witness for C10 at a concrete mapping. -/
theorem C10_sort_preserves_pairs_witness :
    (sort_cotations [("6a", 1), ("zz", 2)]).Perm [("6a", 1), ("zz", 2)] ∧
    ((sort_cotations [("6a", 1), ("zz", 2)]).map Prod.fst).Nodup :=
  C10_sort_preserves_pairs [("6a", 1), ("zz", 2)] (by decide)

/-! ### The structural answer regex `_JSON_RE`
(`AI/AiOps.py` and `MapReduce/reducer.py`, identical patterns)

With `re.IGNORECASE | re.DOTALL | re.VERBOSE` the pattern is: an opening
brace; a lazy non-brace gap then the literal `"difficulties"`; a colon with
surrounding whitespace; a brace-delimited inner run of non-brace characters;
a lazy non-brace gap then the literal `"ambiguous"`; a colon with surrounding
whitespace; the literal `true` or `false`; a lazy non-brace gap; a closing
brace. It is embedded segment by segment as a backtracking matcher over the
character list; each segment returns the suffix left after what it consumed.
-/

def obrace : Char := '\x7b'

def cbrace : Char := '\x7d'

/-- Python's `\s` on the ASCII range (space, tab, newline, CR, VT, FF). -/
def isSpacePy (c : Char) : Bool :=
  c = ' ' || c = '\t' || c = '\n' || c = '\r' || c = '\x0b' || c = '\x0c'

/-- Case-insensitive literal match (`re.IGNORECASE`): consume `lit`, return
the remaining suffix. -/
def stripLitCI : List Char → List Char → Option (List Char)
  | [], cs => some cs
  | _ :: _, [] => none
  | l :: ls, c :: cs => if l.toLower = c.toLower then stripLitCI ls cs else none

/-- A lazy gap `[^{}]*?` followed by a literal, with full backtracking: the
literal is tried at the current position first; if it does not match — or it
matches but the continuation `k` fails — one more non-brace character is
consumed and the scan goes on. Hitting a brace or the end fails. -/
def lazyScan (lit : List Char) (k : List Char → Option (List Char)) :
    List Char → Option (List Char)
  | [] => (match stripLitCI lit [] with
    | some rest => k rest
    | none => none)
  | c :: cs =>
    (match stripLitCI lit (c :: cs) with
     | some rest => k rest
     | none => none).orElse
      (fun _ => if c = obrace || c = cbrace then none else lazyScan lit k cs)

/-- Greedy `\s*` — deterministic here because the character the pattern
requires right after it (a colon, a brace, a letter) is never whitespace. -/
def skipSpaces : List Char → List Char
  | [] => []
  | c :: cs => if isSpacePy c then skipSpaces cs else c :: cs

/-- `\s*:\s*`. -/
def expectColonWs (cs : List Char) : Option (List Char) :=
  match skipSpaces cs with
  | ':' :: rest => some (skipSpaces rest)
  | _ => none

/-- Greedy `[^{}]*` — deterministic because the pattern then requires a
brace, which the consumed run cannot contain. -/
def skipNonBrace : List Char → List Char
  | [] => []
  | c :: cs => if c = obrace || c = cbrace then c :: cs else skipNonBrace cs

/-- The final `[^{}]*?\}`: consume lazily up to the first brace, which must
be the closing one. -/
def lazyClose : List Char → Option (List Char)
  | [] => none
  | c :: cs =>
    if c = cbrace then some cs else if c = obrace then none else lazyClose cs

def difficultiesLit : List Char := "\"difficulties\"".data

def ambiguousLit : List Char := "\"ambiguous\"".data

def trueLit : List Char := "true".data

def falseLit : List Char := "false".data

/-- The pattern from `"ambiguous"` on: lazy scan to the literal, colon,
`true`/`false` alternation, lazy close. -/
def reTail (r5 : List Char) : Option (List Char) :=
  lazyScan ambiguousLit (fun r6 =>
    match expectColonWs r6 with
    | none => none
    | some r7 =>
      (match stripLitCI trueLit r7 with
       | some r8 => lazyClose r8
       | none => none).orElse (fun _ =>
        match stripLitCI falseLit r7 with
        | some r8 => lazyClose r8
        | none => none)) r5

/-- The inner `\{[^{}]*\}` right after `"difficulties"\s*:\s*`, then the
tail. -/
def reInner (r2 : List Char) : Option (List Char) :=
  match r2 with
  | [] => none
  | c :: r3 =>
    if c = obrace then
      match skipNonBrace r3 with
      | [] => none
      | c2 :: r5 => if c2 = cbrace then reTail r5 else none
    else none

/-- One attempt of `_JSON_RE` anchored at the current position; returns the
suffix that follows the matched substring. -/
def reMatch : List Char → Option (List Char)
  | [] => none
  | c :: cs =>
    if c = obrace then
      lazyScan difficultiesLit (fun r1 =>
        match expectColonWs r1 with
        | none => none
        | some r2 => reInner r2) cs
    else none

/-- `_JSON_RE.search`: try each position left to right; on the leftmost match
return the matched substring (`m.group(0)`). -/
def reSearch : List Char → Option (List Char)
  | [] => none
  | c :: cs =>
    match reMatch (c :: cs) with
    | some rest => some ((c :: cs).take ((c :: cs).length - rest.length))
    | none => reSearch cs

/-! ### `json.loads`, for the JSON fragments this system exchanges

Modelled from the strict JSON grammar that `json.loads` implements: objects,
arrays, strings with escapes, `true`/`false`/`null`, and integer numeric
literals. Two restrictions of the model, neither of which any claim touches:
a number with a fraction or exponent part is rejected rather than parsed as a
float (floats are outside this embedding), and a `\uXXXX` escape becomes the
scalar value of its four hex digits (no surrogate pairing). -/

inductive JVal where
  | obj : List (String × JVal) → JVal
  | arr : List JVal → JVal
  | str : String → JVal
  | num : Int → JVal
  | bool : Bool → JVal
  | null : JVal

def isJsonWs (c : Char) : Bool := c = ' ' || c = '\t' || c = '\n' || c = '\r'

def skipJsonWs : List Char → List Char
  | [] => []
  | c :: cs => if isJsonWs c then skipJsonWs cs else c :: cs

def hexVal? (c : Char) : Option Nat :=
  if '0' ≤ c ∧ c ≤ '9' then some (c.toNat - 48)
  else if 'a' ≤ c ∧ c ≤ 'f' then some (c.toNat - 87)
  else if 'A' ≤ c ∧ c ≤ 'F' then some (c.toNat - 55)
  else none

def strCons (c : Char) : Option (String × List Char) → Option (String × List Char)
  | some (s, rest) => some (⟨c :: s.data⟩, rest)
  | none => none

/-- The body of a JSON string, after the opening quote. -/
def parseStringBody : List Char → Option (String × List Char)
  | [] => none
  | '"' :: cs => some ("", cs)
  | '\\' :: 'u' :: h1 :: h2 :: h3 :: h4 :: cs =>
    (match hexVal? h1, hexVal? h2, hexVal? h3, hexVal? h4 with
     | some a, some b, some c, some d =>
       strCons (Char.ofNat (((a * 16 + b) * 16 + c) * 16 + d)) (parseStringBody cs)
     | _, _, _, _ => none)
  | '\\' :: e :: cs =>
    (if e = '"' then strCons '"' (parseStringBody cs)
     else if e = '\\' then strCons '\\' (parseStringBody cs)
     else if e = '/' then strCons '/' (parseStringBody cs)
     else if e = 'b' then strCons '\x08' (parseStringBody cs)
     else if e = 'f' then strCons '\x0c' (parseStringBody cs)
     else if e = 'n' then strCons '\n' (parseStringBody cs)
     else if e = 'r' then strCons '\r' (parseStringBody cs)
     else if e = 't' then strCons '\t' (parseStringBody cs)
     else none)
  | c :: cs => if c.toNat < 32 then none else strCons c (parseStringBody cs)

def takeDigits : List Char → Nat → Nat × List Char
  | [], acc => (acc, [])
  | c :: cs, acc =>
    if c.isDigit then takeDigits cs (acc * 10 + (c.toNat - 48)) else (acc, c :: cs)

/-- The JSON integer part: `0`, or a nonzero digit followed by digits
(a leading zero followed by a digit is invalid JSON). -/
def parseNonnegInt : List Char → Option (Nat × List Char)
  | [] => none
  | c :: cs =>
    if c = '0' then
      match cs with
      | c2 :: _ => if c2.isDigit then none else some (0, cs)
      | [] => some (0, [])
    else if c.isDigit then some (takeDigits cs (c.toNat - 48))
    else none

/-- A fraction or exponent part would make the literal a float; the model
rejects it (see the section comment). -/
def rejectNumTail : List Char → Option (List Char)
  | [] => some []
  | c :: cs => if c = '.' ∨ c = 'e' ∨ c = 'E' then none else some (c :: cs)

def parseIntLit : List Char → Option (Int × List Char)
  | '-' :: cs =>
    (match parseNonnegInt cs with
     | some (n, rest) => (rejectNumTail rest).map (fun r => (-(Int.ofNat n), r))
     | none => none)
  | cs =>
    match parseNonnegInt cs with
    | some (n, rest) => (rejectNumTail rest).map (fun r => (Int.ofNat n, r))
    | none => none

mutual

/-- One JSON value, starting at the given (already whitespace-skipped)
position. The fuel only bounds nesting depth. -/
def parseVal : Nat → List Char → Option (JVal × List Char)
  | 0, _ => none
  | _ + 1, [] => none
  | fuel + 1, c :: cs =>
    if c = '"' then
      match parseStringBody cs with
      | some (s, rest) => some (JVal.str s, rest)
      | none => none
    else if c = obrace then
      match skipJsonWs cs with
      | [] => none
      | c2 :: cs2 =>
        if c2 = cbrace then some (JVal.obj [], cs2)
        else parseMembers fuel [] (c2 :: cs2)
    else if c = '[' then
      match skipJsonWs cs with
      | [] => none
      | c2 :: cs2 =>
        if c2 = ']' then some (JVal.arr [], cs2)
        else parseItems fuel [] (c2 :: cs2)
    else if c = 't' then
      match cs with
      | 'r' :: 'u' :: 'e' :: rest => some (JVal.bool true, rest)
      | _ => none
    else if c = 'f' then
      match cs with
      | 'a' :: 'l' :: 's' :: 'e' :: rest => some (JVal.bool false, rest)
      | _ => none
    else if c = 'n' then
      match cs with
      | 'u' :: 'l' :: 'l' :: rest => some (JVal.null, rest)
      | _ => none
    else
      match parseIntLit (c :: cs) with
      | some (n, rest) => some (JVal.num n, rest)
      | none => none

/-- The members of a JSON object after its opening brace; duplicate keys
overwrite in place exactly as successive Python dict assignments do. -/
def parseMembers : Nat → List (String × JVal) → List Char → Option (JVal × List Char)
  | 0, _, _ => none
  | fuel + 1, acc, cs =>
    match cs with
    | '"' :: cs1 =>
      (match parseStringBody cs1 with
       | none => none
       | some (key, cs2) =>
        match skipJsonWs cs2 with
        | ':' :: cs3 =>
          (match parseVal fuel (skipJsonWs cs3) with
           | none => none
           | some (v, cs4) =>
            match skipJsonWs cs4 with
            | ',' :: cs5 => parseMembers fuel (dictInsert acc key v) (skipJsonWs cs5)
            | c6 :: cs6 =>
              if c6 = cbrace then some (JVal.obj (dictInsert acc key v), cs6) else none
            | [] => none)
        | _ => none)
    | _ => none

/-- The items of a JSON array after its opening bracket. -/
def parseItems : Nat → List JVal → List Char → Option (JVal × List Char)
  | 0, _, _ => none
  | fuel + 1, acc, cs =>
    match parseVal fuel cs with
    | none => none
    | some (v, rest) =>
      match skipJsonWs rest with
      | ',' :: cs2 => parseItems fuel (acc ++ [v]) (skipJsonWs cs2)
      | c2 :: cs3 => if c2 = ']' then some (JVal.arr (acc ++ [v]), cs3) else none
      | [] => none

end

/-- `json.loads`: parse exactly one value surrounded by whitespace; `none`
models `json.JSONDecodeError`. `length + 1` fuel always suffices since fuel
only drops at nesting steps. -/
def loads (s : String) : Option JVal :=
  match parseVal (s.length + 1) (skipJsonWs s.data) with
  | some (v, rest) => if skipJsonWs rest = [] then some v else none
  | none => none

/-- `_extract_json` of `AI/AiOps.py` (and, identically, of
`MapReduce/reducer.py`): search the text for the structural pattern; with no
match return `None`; otherwise strictly parse the matched substring, a parse
failure also returning `None`. -/
def _extract_json (text : String) : Option JVal :=
  match reSearch text.data with
  | some m => loads ⟨m⟩
  | none => none

/-! ### Behaviour of the search -/

theorem reSearch_of_reMatch :
    ∀ (cs rest : List Char), reMatch cs = some rest →
      reSearch cs = some (cs.take (cs.length - rest.length))
  | [], _, h => by simp [reMatch] at h
  | c :: cs', rest, h => by simp only [reSearch, h]

theorem take_append_cancel (l r : List Char) :
    (l ++ r).take ((l ++ r).length - r.length) = l := by
  rw [List.length_append, Nat.add_sub_cancel]
  exact List.take_left l r

theorem reSearch_append_of_no_obrace :
    ∀ (p cs : List Char), (∀ c ∈ p, c ≠ obrace) → reSearch (p ++ cs) = reSearch cs
  | [], _, _ => rfl
  | c :: p', cs, h => by
    have hc : c ≠ obrace := h c (List.mem_cons_self c p')
    have hm : reMatch (c :: (p' ++ cs)) = none := by
      simp only [reMatch, if_neg hc]
    simp only [List.cons_append, reSearch, List.append_eq, hm]
    exact reSearch_append_of_no_obrace p' cs (fun d hd => h d (List.mem_cons_of_mem _ hd))

theorem reSearch_no_obrace :
    ∀ (cs : List Char), (∀ c ∈ cs, c ≠ obrace) → reSearch cs = none
  | [], _ => rfl
  | c :: cs', h => by
    have hc : c ≠ obrace := h c (List.mem_cons_self c cs')
    have hm : reMatch (c :: cs') = none := by
      simp only [reMatch, if_neg hc]
    simp only [reSearch, hm]
    exact reSearch_no_obrace cs' (fun d hd => h d (List.mem_cons_of_mem _ hd))

/-- The round-trip answer object of the spec's extraction scenario. -/
def answer9 : String :=
  "\x7b\"difficulties\": \x7b\"6a\": 2, \"VI\": 1\x7d, \"ambiguous\": false\x7d"

/-- The mapping `answer9` denotes. -/
def answer9Val : JVal :=
  JVal.obj [("difficulties", JVal.obj [("6a", JVal.num 2), ("VI", JVal.num 1)]),
    ("ambiguous", JVal.bool false)]

theorem reMatch_answer9 (rest : List Char) :
    reMatch (answer9.data ++ rest) = some rest := rfl

theorem reSearch_answer9 (rest : List Char) :
    reSearch (answer9.data ++ rest) = some answer9.data := by
  rw [reSearch_of_reMatch (answer9.data ++ rest) rest (reMatch_answer9 rest),
    take_append_cancel]

/-- C9: extraction round-trip — the exact answer object surrounded by
arbitrary brace-free prose (markdown fences included) is recovered unchanged
as a mapping, and a text with no brace-delimited object at all (no opening
brace anywhere) yields no result. -/
theorem C9_extraction_roundtrip :
    (∀ p s : String, (∀ c ∈ p.data, c ≠ obrace ∧ c ≠ cbrace) →
      (∀ c ∈ s.data, c ≠ obrace ∧ c ≠ cbrace) →
      _extract_json (p ++ answer9 ++ s) = some answer9Val) ∧
    (∀ t : String, (∀ c ∈ t.data, c ≠ obrace) → _extract_json t = none) := by
  constructor
  · intro p s hp _
    have hdata : (p ++ answer9 ++ s).data = p.data ++ (answer9.data ++ s.data) := by
      simp [String.data_append]
    have hsearch : reSearch (p ++ answer9 ++ s).data = some answer9.data := by
      rw [hdata, reSearch_append_of_no_obrace _ _ (fun c hc => (hp c hc).1),
        reSearch_answer9]
    simp only [_extract_json, hsearch]
    rfl
  · intro t ht
    simp only [_extract_json, reSearch_no_obrace t.data ht]

/-- Witness for C9: a concrete prose-and-fence wrapping, and a concrete text
with no braces. -/
theorem C9_extraction_roundtrip_witness :
    _extract_json ("Sure! Here is the JSON:\n```json\n" ++ answer9 ++ "\n```\nDone.")
      = some answer9Val ∧
    _extract_json "the description names no grades" = none :=
  ⟨C9_extraction_roundtrip.1 "Sure! Here is the JSON:\n```json\n" "\n```\nDone."
      (by decide) (by decide),
   C9_extraction_roundtrip.2 "the description names no grades" (by decide)⟩

/-- A well-formed answer object with the `difficulties` field first. -/
def answer4df : String :=
  "\x7b\"difficulties\": \x7b\"6a\": 2\x7d, \"ambiguous\": false\x7d"

/-- The mapping `answer4df` denotes. -/
def answer4dfVal : JVal :=
  JVal.obj [("difficulties", JVal.obj [("6a", JVal.num 2)]),
    ("ambiguous", JVal.bool false)]

/-- The same answer object with the `ambiguous` field first. -/
def answer4af : String :=
  "\x7b\"ambiguous\": false, \"difficulties\": \x7b\"6a\": 2\x7d\x7d"

/-- The mapping `answer4af` denotes (it is perfectly valid JSON). -/
def answer4afVal : JVal :=
  JVal.obj [("ambiguous", JVal.bool false),
    ("difficulties", JVal.obj [("6a", JVal.num 2)])]

theorem reMatch_answer4df (rest : List Char) :
    reMatch (answer4df.data ++ rest) = some rest := rfl

theorem reSearch_answer4df (rest : List Char) :
    reSearch (answer4df.data ++ rest) = some answer4df.data := by
  rw [reSearch_of_reMatch (answer4df.data ++ rest) rest (reMatch_answer4df rest),
    take_append_cancel]

/-- C4 counterexample: `answer4af` is a syntactically valid answer object —
`json.loads` accepts it — whose `ambiguous` field precedes its
`difficulties` field, yet the extractor returns no result on a text that is
exactly this object. -/
theorem C4_counterexample_field_order :
    loads answer4af = some answer4afVal ∧ _extract_json answer4af = none :=
  ⟨rfl, rfl⟩

/-- C4 amended: the pattern is order-sensitive — the extractor succeeds (on
the first such substring) only when the `difficulties` field appears before
the `ambiguous` field inside the outer brace pair; with `ambiguous` first
(and not repeated after the inner mapping) it finds nothing. -/
theorem C4_extractor_field_order (p s : String)
    (hp : ∀ c ∈ p.data, c ≠ obrace ∧ c ≠ cbrace)
    (_hs : ∀ c ∈ s.data, c ≠ obrace ∧ c ≠ cbrace) :
    _extract_json (p ++ answer4df ++ s) = some answer4dfVal ∧
    _extract_json answer4af = none := by
  refine ⟨?_, rfl⟩
  have hdata : (p ++ answer4df ++ s).data = p.data ++ (answer4df.data ++ s.data) := by
    simp [String.data_append]
  have hsearch : reSearch (p ++ answer4df ++ s).data = some answer4df.data := by
    rw [hdata, reSearch_append_of_no_obrace _ _ (fun c hc => (hp c hc).1),
      reSearch_answer4df]
  simp only [_extract_json, hsearch]
  rfl

/-- Witness for C4's amended theorem at concrete surroundings. -/
theorem C4_extractor_field_order_witness :
    _extract_json ("reply: " ++ answer4df ++ " end") = some answer4dfVal ∧
    _extract_json answer4af = none :=
  C4_extractor_field_order "reply: " " end" (by decide) (by decide)

/-- C8: the extractor is a total function that returns no result — rather
than any error — both when the structural search finds no match and when the
matched substring is not valid JSON. -/
theorem C8_extractor_total (text : String) :
    (reSearch text.data = none → _extract_json text = none) ∧
    (∀ m : List Char, reSearch text.data = some m → loads ⟨m⟩ = none →
      _extract_json text = none) := by
  constructor
  · intro h
    simp only [_extract_json, h]
  · intro m hm hl
    simp only [_extract_json, hm, hl]

/-- Witness for C8: a text with no match at all, and a text whose match is
structurally acceptable but not syntactically valid JSON (a missing comma). -/
theorem C8_extractor_total_witness :
    _extract_json "no answer object in this text" = none ∧
    _extract_json "\x7b\"difficulties\": \x7b\x7d \"ambiguous\": true\x7d" = none :=
  ⟨(C8_extractor_total "no answer object in this text").1 rfl,
   (C8_extractor_total "\x7b\"difficulties\": \x7b\x7d \"ambiguous\": true\x7d").2
     "\x7b\"difficulties\": \x7b\x7d \"ambiguous\": true\x7d".data rfl rfl⟩

/-! ### The reducer's grade normalization (`MapReduce/reducer.py`) -/

/-- `AiParams._arabic` (`AI/AiParams.py`). -/
def _arabic : List String := [
  "1",
  "2",
  "3", "3+", "3a", "3b", "3c",
  "4", "4+", "4a", "4b", "4c", "4c+",
  "5", "5+", "5a", "5a+", "5b", "5b+", "5c", "5c+",
  "6a", "6a+", "6b", "6b+", "6c", "6c+",
  "7a", "7a+", "7b", "7b+", "7c", "7c+",
  "8a", "8a+", "8b", "8b+", "8c", "8c+",
  "9a", "9a+", "9b", "9b+", "9c", "9c+"]

/-- `AiParams._roman` (`AI/AiParams.py`). -/
def _roman : List String := [
  "I", "I+",
  "II", "II+",
  "III", "III+",
  "IV-", "IV", "IV+",
  "V-", "V", "V+",
  "VI-", "VI", "VI+",
  "VII-", "VII", "VII+",
  "VIII-", "VIII", "VIII+",
  "IX-", "IX", "IX+",
  "X-", "X", "X+",
  "XI-", "XI"]

/-- `AiParams.VALID_SET = _arabic + _roman` (`AI/AiParams.py`). -/
def VALID_SET : List String := _arabic ++ _roman

/-- Modelled from the spec: `valid_difficulties` lives in
`Parameters/cotations.py`, which is not among the sources. Spec §4.1 defines
the vocabulary as all Arabic and all Roman tokens (the token lists of
`AiParams.VALID_SET`) with membership tested on the case-normalized token;
the reducer tests the lower-cased, stripped key against this set, so the set
holds each vocabulary token's lower-case form. -/
def valid_difficulties : List String := VALID_SET.map lowerStr

/-- Python `str.strip()` on the ASCII whitespace range. -/
def trimWsChars (cs : List Char) : List Char :=
  ((cs.dropWhile isSpacePy).reverse.dropWhile isSpacePy).reverse

/-- The reducer's key normalization `grade.lower().strip()`. -/
def normKey (grade : String) : String := ⟨trimWsChars (lowerStr grade).data⟩

/-- A run of decimal digits as a number (`none` when empty or non-digit). -/
def digitsToNat? : List Char → Option Nat
  | [] => none
  | cs =>
    if cs.all Char.isDigit then
      some (cs.foldl (fun a c => a * 10 + (c.toNat - 48)) 0)
    else none

/-- Python `int(s)` on a string: surrounding whitespace and one sign are
allowed around a nonempty digit run; anything else raises (`none`). -/
def pyStrToInt (s : String) : Option Int :=
  match trimWsChars s.data with
  | '+' :: cs => (digitsToNat? cs).map (fun n => (n : Int))
  | '-' :: cs => (digitsToNat? cs).map (fun n => -(n : Int))
  | cs => (digitsToNat? cs).map (fun n => (n : Int))

/-- Python `int(x)` on the values a parsed JSON mapping can hold: an int is
itself, a boolean is 0 or 1, a numeric string parses, and everything else
(`null`, objects, arrays, non-numeric strings) raises — modelled as `none`. -/
def pyToInt : JVal → Option Int
  | JVal.num i => some i
  | JVal.bool b => some (if b then 1 else 0)
  | JVal.str s => pyStrToInt s
  | _ => none

/-- The normalization loop of `reducer` (`MapReduce/reducer.py`): for every
`difficulties` entry, lower-case and strip the key, keep the entry only if
that key is in `valid_difficulties`, and assign `int(count)` — or `0` when
the coercion raises — into the clean dict. -/
def reducerClean (difficulties : List (String × JVal)) : List (String × Int) :=
  difficulties.foldl
    (fun acc p =>
      if normKey p.1 ∈ valid_difficulties then
        dictInsert acc (normKey p.1) ((pyToInt p.2).getD 0)
      else acc) []

theorem mem_dictInsert {α : Type} {q : String × α} :
    ∀ {d : List (String × α)} {k : String} {v : α},
      q ∈ dictInsert d k v → q.1 = k ∨ q ∈ d := by
  intro d
  induction d with
  | nil =>
    intro k v hq
    rcases List.mem_singleton.mp hq with rfl
    exact Or.inl rfl
  | cons p rest ih =>
    intro k v hq
    obtain ⟨k0, v0⟩ := p
    by_cases hk : k0 = k
    · simp only [dictInsert, if_pos hk] at hq
      rcases List.mem_cons.mp hq with rfl | hq
      · exact Or.inl hk
      · exact Or.inr (List.mem_cons_of_mem _ hq)
    · simp only [dictInsert, if_neg hk] at hq
      rcases List.mem_cons.mp hq with rfl | hq
      · exact Or.inr (List.mem_cons_self _ _)
      · rcases ih hq with h | h
        · exact Or.inl h
        · exact Or.inr (List.mem_cons_of_mem _ h)

theorem reducerClean_foldl_mem_valid :
    ∀ (raw : List (String × JVal)) (acc : List (String × Int)),
      (∀ q ∈ acc, q.1 ∈ valid_difficulties) →
      ∀ q ∈ raw.foldl
        (fun acc p =>
          if normKey p.1 ∈ valid_difficulties then
            dictInsert acc (normKey p.1) ((pyToInt p.2).getD 0)
          else acc) acc,
        q.1 ∈ valid_difficulties
  | [], acc, hacc => hacc
  | p :: raw', acc, hacc => by
    rw [List.foldl_cons]
    by_cases hp : normKey p.1 ∈ valid_difficulties
    · rw [if_pos hp]
      refine reducerClean_foldl_mem_valid raw' _ ?_
      intro q hq
      rcases mem_dictInsert hq with h | h
      · exact h ▸ hp
      · exact hacc q h
    · rw [if_neg hp]
      exact reducerClean_foldl_mem_valid raw' acc hacc

theorem reducerClean_foldl_eq :
    ∀ (raw : List (String × JVal)) (acc : List (String × Int)),
      (raw.map (fun p => normKey p.1)).Nodup →
      (∀ p ∈ raw, normKey p.1 ∉ acc.map Prod.fst) →
      raw.foldl
        (fun acc p =>
          if normKey p.1 ∈ valid_difficulties then
            dictInsert acc (normKey p.1) ((pyToInt p.2).getD 0)
          else acc) acc
        = acc ++ raw.filterMap (fun p =>
            if normKey p.1 ∈ valid_difficulties then
              some (normKey p.1, (pyToInt p.2).getD 0)
            else none)
  | [], acc, _, _ => by simp
  | p :: raw', acc, hnd, hdisj => by
    rw [List.map_cons, List.nodup_cons] at hnd
    rw [List.foldl_cons]
    by_cases hp : normKey p.1 ∈ valid_difficulties
    · rw [if_pos hp,
        dictInsert_of_not_mem _ (hdisj p (List.mem_cons_self p raw'))]
      rw [reducerClean_foldl_eq raw' _ hnd.2 ?_]
      · simp [List.filterMap_cons, hp]
      · intro q hq
        simp only [List.map_append, List.mem_append, List.map_cons, List.map_nil,
          List.mem_singleton]
        rintro (hin | hin)
        · exact hdisj q (List.mem_cons_of_mem p hq) hin
        · exact hnd.1 (hin ▸ (List.mem_map.mpr ⟨q, hq, rfl⟩))
    · rw [if_neg hp]
      rw [reducerClean_foldl_eq raw' acc hnd.2
        (fun q hq => hdisj q (List.mem_cons_of_mem p hq))]
      simp [List.filterMap_cons, hp]

/-- C6 counterexample: the reducer lower-cases Roman tokens too. The
scenario mapping does not pass through unchanged: its normalized keys are
`iv-`, `4a`, `vi+`, and the sorter emits exactly those lower-case tokens,
not `IV-`/`VI+`. -/
theorem C6_counterexample_case :
    reducerClean [("IV-", JVal.num 1), ("4a", JVal.num 3), ("VI+", JVal.num 1)]
      = [("iv-", 1), ("4a", 3), ("vi+", 1)] ∧
    sort_and_array (reducerClean
        [("IV-", JVal.num 1), ("4a", JVal.num 3), ("VI+", JVal.num 1)])
      ≠ [("IV-", 1), ("4a", 3), ("VI+", 1)] := by
  decide

/-- C6 amended: the reducer lower-cases (and strips) grade tokens of both
families before the vocabulary test — Roman tokens are not restored to upper
case — so every key it emits belongs to the lower-cased vocabulary, and on
the scenario mapping the sorter outputs
`[("iv-", 1), ("4a", 3), ("vi+", 1)]` in canonical order. -/
theorem C6_lowercase_normalization :
    (∀ raw : List (String × JVal), ∀ q ∈ reducerClean raw,
      q.1 ∈ valid_difficulties) ∧
    sort_and_array (reducerClean
        [("IV-", JVal.num 1), ("4a", JVal.num 3), ("VI+", JVal.num 1)])
      = [("iv-", 1), ("4a", 3), ("vi+", 1)] := by
  constructor
  · intro raw q hq
    exact reducerClean_foldl_mem_valid raw [] (by simp) q hq
  · decide

/-- Witness for C6's amended theorem: a concrete emitted key is in the
lower-cased vocabulary. -/
theorem C6_lowercase_normalization_witness :
    ("6a", (1 : Int)).1 ∈ valid_difficulties :=
  C6_lowercase_normalization.1 [("6A", JVal.num 1)] ("6a", 1) (by decide)

/-- C7 counterexample: `int()` does not clamp, so a negative count survives
normalization — the retained value is not a non-negative integer. -/
theorem C7_counterexample_negative :
    reducerClean [("6a", JVal.num (-5))] = [("6a", -5)] ∧ (-5 : Int) < 0 := by
  decide

/-- C7 amended: on a raw mapping whose normalized keys are distinct, the
reducer keeps exactly the entries whose lower-cased, stripped key is in the
vocabulary — silently dropping the others — and maps every retained key to
`int(value)`, an integer that may be negative, or `0` when the coercion
raises; no retained key is ever dropped because of its value, and nothing
raises. In particular `6a: 2, not-a-grade: 5` normalizes to `6a: 2`, and an
uncoercible value yields `0`. -/
theorem C7_value_coercion (raw : List (String × JVal))
    (hnd : (raw.map (fun p => normKey p.1)).Nodup) :
    reducerClean raw = raw.filterMap (fun p =>
      if normKey p.1 ∈ valid_difficulties then
        some (normKey p.1, (pyToInt p.2).getD 0)
      else none) ∧
    reducerClean [("6a", JVal.num 2), ("not-a-grade", JVal.num 5)] = [("6a", 2)] ∧
    reducerClean [("6a", JVal.str "oops")] = [("6a", 0)] := by
  refine ⟨?_, by decide, by decide⟩
  have h := reducerClean_foldl_eq raw [] hnd (by simp)
  simpa [reducerClean] using h

/-- Witness for C7 at the spec's concrete example. -/
theorem C7_value_coercion_witness :
    reducerClean [("6a", JVal.num 2), ("not-a-grade", JVal.num 5)] = [("6a", 2)] :=
  (C7_value_coercion [("6a", JVal.num 2), ("not-a-grade", JVal.num 5)]
    (by decide)).2.1

/-! ### The activity gate `_wanted_activity` (`AI/AiOps.py`) -/

/-- The `acts_json` argument: the `activities` column value, typed
`str | list | None` in the source; a route's activity list holds tag
strings. -/
inductive ActsInput where
  | null : ActsInput
  | list : List String → ActsInput
  | str : String → ActsInput

/-- Modelled from the spec: `DESIRED_ACTIVITIES` lives in
`Parameters/activities.py`, which is not among the sources. Spec §4.5 calls
it the fixed configured set of desired activity tags;
`MapReduce/mapper.py` names the same three tags for its own filter. -/
def DESIRED_ACTIVITIES : List String :=
  ["rock_climbing", "bouldering", "mountain_climbing"]

/-- Python `a in DESIRED_ACTIVITIES` for one element of the activity
iterable: a string is looked up, other scalars are simply absent from a set
of strings, and unhashable values (lists, dicts) raise. -/
def setMember (desired : List String) : JVal → Except String Bool
  | JVal.str s => Except.ok (decide (s ∈ desired))
  | JVal.num _ => Except.ok false
  | JVal.bool _ => Except.ok false
  | JVal.null => Except.ok false
  | JVal.arr _ => Except.error "TypeError: unhashable type"
  | JVal.obj _ => Except.error "TypeError: unhashable type"

/-- `any(a in DESIRED_ACTIVITIES for a in acts)`: lazy, left to right, true
short-circuits before a later element could raise. -/
def anyDesired (desired : List String) : List JVal → Except String Bool
  | [] => Except.ok false
  | v :: vs =>
    match setMember desired v with
    | Except.error e => Except.error e
    | Except.ok true => Except.ok true
    | Except.ok false => anyDesired desired vs

/-- Python iteration `for a in acts` over a `json.loads` result: arrays
yield their items, dicts their keys, strings their characters; scalars are
not iterable and raise. -/
def pyIter : JVal → Except String (List JVal)
  | JVal.arr xs => Except.ok xs
  | JVal.obj fields => Except.ok (fields.map (fun p => JVal.str p.1))
  | JVal.str s => Except.ok (s.data.map (fun c => JVal.str ⟨[c]⟩))
  | _ => Except.error "TypeError: not iterable"

/-- `_wanted_activity` of `AI/AiOps.py`, parametrized by the configured
`DESIRED_ACTIVITIES` set the source closes over. Falsy input — `None`, the
empty list, the empty string — returns `False` at once; a list is used as
is; any other string goes through `json.loads`, whose failure on malformed
input propagates as an exception (`Except.error`), uncaught in the source. -/
def _wanted_activity (desired : List String) : ActsInput → Except String Bool
  | ActsInput.null => Except.ok false
  | ActsInput.list xs =>
    if xs = [] then Except.ok false
    else anyDesired desired (xs.map JVal.str)
  | ActsInput.str s =>
    if s = "" then Except.ok false
    else
      match loads s with
      | none => Except.error "json.JSONDecodeError"
      | some v =>
        match pyIter v with
        | Except.error e => Except.error e
        | Except.ok items => anyDesired desired items

theorem anyDesired_strings (desired : List String) :
    ∀ xs : List String, anyDesired desired (xs.map JVal.str)
      = Except.ok (xs.any (fun a => decide (a ∈ desired)))
  | [] => rfl
  | x :: xs => by
    simp only [List.map_cons, anyDesired, setMember, List.any_cons]
    by_cases h : x ∈ desired
    · simp [h]
    · simp [h, anyDesired_strings desired xs]

/-- C5 counterexample: a malformed — non-empty, non-JSON — activity string
makes the gate raise a JSON decode error instead of returning false. -/
theorem C5_counterexample_malformed :
    _wanted_activity DESIRED_ACTIVITIES (ActsInput.str "oops")
      = Except.error "json.JSONDecodeError" ∧
    ∀ b : Bool, _wanted_activity DESIRED_ACTIVITIES (ActsInput.str "oops")
      ≠ Except.ok b := by
  refine ⟨rfl, ?_⟩
  intro b h
  have h' : (Except.error "json.JSONDecodeError" : Except String Bool)
      = Except.ok b := h
  exact Except.noConfusion h'

/-- C5 amended: the gate returns true iff the route's activities intersect
the configured desired set, both for native list input and for a string
holding a well-formed JSON array of the same tags; null, the empty list and
the empty string return false; but a malformed non-empty activity string
raises a JSON decode error rather than failing closed. -/
theorem C5_activity_gate (desired : List String) (xs : List String) (s : String) :
    _wanted_activity desired (ActsInput.list xs)
      = Except.ok (xs.any (fun a => decide (a ∈ desired))) ∧
    _wanted_activity desired ActsInput.null = Except.ok false ∧
    _wanted_activity desired (ActsInput.str "") = Except.ok false ∧
    (s ≠ "" → loads s = some (JVal.arr (xs.map JVal.str)) →
      _wanted_activity desired (ActsInput.str s)
        = Except.ok (xs.any (fun a => decide (a ∈ desired)))) ∧
    (s ≠ "" → loads s = none →
      _wanted_activity desired (ActsInput.str s)
        = Except.error "json.JSONDecodeError") := by
  refine ⟨?_, rfl, rfl, ?_, ?_⟩
  · by_cases hxs : xs = []
    · subst hxs; rfl
    · simp only [_wanted_activity, if_neg hxs]
      exact anyDesired_strings desired xs
  · intro hs hl
    simp only [_wanted_activity, if_neg hs, hl, pyIter]
    exact anyDesired_strings desired xs
  · intro hs hl
    simp only [_wanted_activity, if_neg hs, hl]

/-- Witness for C5's amended theorem: a list input that intersects the
configured tags, a JSON-encoded form of the same list, and a malformed
string. -/
theorem C5_activity_gate_witness :
    _wanted_activity DESIRED_ACTIVITIES (ActsInput.list ["hiking", "rock_climbing"])
      = Except.ok true ∧
    _wanted_activity DESIRED_ACTIVITIES
        (ActsInput.str "[\"hiking\", \"rock_climbing\"]") = Except.ok true ∧
    _wanted_activity DESIRED_ACTIVITIES (ActsInput.str "oops")
      = Except.error "json.JSONDecodeError" :=
  ⟨((C5_activity_gate DESIRED_ACTIVITIES ["hiking", "rock_climbing"] "x").1).trans
      (congrArg Except.ok (by decide)),
   (((C5_activity_gate DESIRED_ACTIVITIES ["hiking", "rock_climbing"]
        "[\"hiking\", \"rock_climbing\"]").2.2.2.1 (by decide) (by rfl))).trans
      (congrArg Except.ok (by decide)),
   ((C5_activity_gate DESIRED_ACTIVITIES [] "oops").2.2.2.2 (by decide) (by rfl))⟩
